import Mathlib

/-!
Verification of the Catalog Filter Engine of `src/pages/service.js`
(washer-fault-finder).

Strings are modelled as lists of characters (`Str`), so that the
JavaScript string operations used by the source (`toLowerCase`, `trim`,
`includes`, `===`, `.sort()`) become plain list functions.  `toLowerCase`
is modelled by `Char.toLower` (the source data is ASCII), `trim` by
dropping whitespace on both ends, `includes` by list-infix containment,
and default `sort()` by lexicographic ascending order on the character
lists, which is exactly the `LinearOrder (List Char)` order.
-/

abbrev Str := List Char

/-- One record of `data.json`, as consumed by `service.js`. -/
structure Entry where
  brand : Str
  type : Str
  code : Str
  issue : Str
  fix_summary : Str
  parts_needed : List Str
  affiliate_link : Str
  video_guide : Str
deriving DecidableEq, Repr

/-- JS `s.toLowerCase()` on ASCII data. -/
def jsToLower (s : Str) : Str := s.map Char.toLower

/-- JS `s.trim()`: whitespace removed from both ends. -/
def jsTrim (s : Str) : Str :=
  ((s.dropWhile Char.isWhitespace).reverse.dropWhile Char.isWhitespace).reverse

/-- `query.toLowerCase().trim()` from `handleSearch` (line 194). -/
def jsNormalize (q : Str) : Str := jsTrim (jsToLower q)

/-- The template literal of line 199:
`` `${item.brand} ${item.code} ${item.issue} ${item.fix_summary}` ``. -/
def fullString (e : Entry) : Str :=
  e.brand ++ [' '] ++ e.code ++ [' '] ++ e.issue ++ [' '] ++ e.fix_summary

/-- Helper for `dedupFirst`: keeps list elements not yet seen, in order,
recording seen elements as a JS `Set` does. -/
def dedupFirstAux (seen : List Str) : List Str → List Str
  | [] => []
  | x :: xs => if x ∈ seen then dedupFirstAux seen xs else x :: dedupFirstAux (x :: seen) xs

/-- `[...new Set(l)]`: duplicates removed, first occurrences kept,
insertion order preserved. -/
def dedupFirst (l : List Str) : List Str := dedupFirstAux [] l

/-- `populateBrands` (lines 66-74): `[...new Set(DB.map(item => item.brand))].sort()`. -/
def listBrands (db : List Entry) : List Str :=
  List.insertionSort (· ≤ ·) (dedupFirst (db.map (·.brand)))

/-- The type-listing logic of `updateTypes` (lines 80-100): an empty
selected brand returns early with no options; otherwise
`[...new Set(DB.filter(item => item.brand === b).map(item => item.type))]`. -/
def listTypes (db : List Entry) (b : Str) : List Str :=
  if b = [] then []
  else dedupFirst ((db.filter (fun e => decide (e.brand = b))).map (·.type))

/-- The code-listing logic of `updateCodes` (lines 114-134): empty brand or
type returns early; otherwise
`DB.filter(item => item.brand === b && item.type === t)`, in catalog order. -/
def listCodes (db : List Entry) (b t : Str) : List Entry :=
  if b = [] ∨ t = [] then []
  else db.filter (fun e => decide (e.brand = b ∧ e.type = t))

/-- The key lookup of `renderSolution` (lines 149-153):
`DB.find(item => item.brand === brand && item.type === type && item.code === code)`. -/
def findExact (db : List Entry) (b t c : Str) : Option Entry :=
  db.find? (fun e => decide (e.brand = b ∧ e.type = t ∧ e.code = c))

/-- Whether an entry matches a normalized query, line 199-200:
`` fullString.toLowerCase().includes(q) ``. -/
def entryMatches (e : Entry) (q : Str) : Bool :=
  decide (q <:+: jsToLower (fullString e))

/-- The search of `handleSearch` (lines 193-201): normalize the query,
give up below two characters, else `DB.find(...)` on `entryMatches`. -/
def searchText (db : List Entry) (query : Str) : Option Entry :=
  let q := jsNormalize query
  if q.length < 2 then none
  else db.find? (fun e => entryMatches e q)

/-!
UI state.  The three `<select>` elements are modelled by their option-value
lists plus current value; assigning `.value` selects the matching option,
or leaves no option selected (value `""`) when none matches, per DOM
semantics.  The solution card is modelled by its hidden flag together with
the entry whose fields were last written into it.
-/

structure UIState where
  brandOpts : List Str
  brandVal : Str
  typeOpts : List Str
  typeVal : Str
  codeOpts : List Str
  codeVal : Str
  typeDisabled : Bool
  codeDisabled : Bool
  cardHidden : Bool
  displayed : Option Entry
deriving DecidableEq, Repr

/-- DOM assignment `sel.value = v`. -/
def setVal (opts : List Str) (v : Str) : Str := if v ∈ opts then v else []

/-- `hideSolution` (lines 187-189). -/
def hideSolution (st : UIState) : UIState := { st with cardHidden := true }

/-- `renderSolution` (lines 144-185): exact key lookup on the current
selections; hide the card on a miss, else fill the card and show it. -/
def renderSolution (db : List Entry) (st : UIState) : UIState :=
  match findExact db st.brandVal st.typeVal st.codeVal with
  | none => hideSolution st
  | some e => { st with displayed := some e, cardHidden := false }

/-- `updateCodes` (lines 114-140).  Resets the code dropdown (placeholder
option only, hence value `""`), hides the card, returns early on an empty
brand or type, else repopulates the code options and, when a code is
pre-selected (truthy), assigns it and renders. -/
def updateCodes (db : List Entry) (pre : Option Str) (st : UIState) : UIState :=
  let st := { st with codeOpts := [[]], codeVal := [], codeDisabled := true,
                      cardHidden := true }
  if st.brandVal = [] ∨ st.typeVal = [] then st
  else
    let codes := db.filter (fun e => decide (e.brand = st.brandVal ∧ e.type = st.typeVal))
    let st := { st with codeOpts := ([] : Str) :: codes.map (·.code), codeDisabled := false }
    match pre with
    | some c =>
        if c ≠ [] then renderSolution db { st with codeVal := setVal st.codeOpts c } else st
    | none => st

/-- `updateTypes` (lines 80-108).  Resets the type and code dropdowns,
hides the card, returns early on an empty brand, else repopulates the type
options and, when a pre-selected type is truthy and available, assigns it
and chains into `updateCodes`. -/
def updateTypes (db : List Entry) (pre : Option Str) (st : UIState) : UIState :=
  let st := { st with typeOpts := [[]], typeVal := [], codeOpts := [[]], codeVal := [],
                      typeDisabled := true, codeDisabled := true, cardHidden := true }
  if st.brandVal = [] then st
  else
    let avail := dedupFirst ((db.filter (fun e => decide (e.brand = st.brandVal))).map (·.type))
    let st := { st with typeOpts := ([] : Str) :: avail, typeDisabled := false }
    match pre with
    | some t =>
        if t ≠ [] ∧ t ∈ avail then updateCodes db none { st with typeVal := t } else st
    | none => st

/-- `populateBrands` (lines 66-74): appends the sorted distinct brands to
the brand dropdown's options. -/
def populateBrands (db : List Entry) (st : UIState) : UIState :=
  { st with brandOpts := st.brandOpts ++ listBrands db }

/-- `handleSearch` (lines 193-220).  The search itself is `searchText`
(both its early return on a short query and a fruitless `DB.find` leave
the state untouched); on a match the brand value is assigned, the chain
`updateTypes(match.type)` runs, then the timeout body assigns the code
value and renders. -/
def handleSearch (db : List Entry) (query : Str) (st : UIState) : UIState :=
  match searchText db query with
  | none => st
  | some m =>
      let st := { st with brandVal := setVal st.brandOpts m.brand }
      let st := updateTypes db (some m.type) st
      let st := { st with codeVal := setVal st.codeOpts m.code }
      renderSolution db st

/-- Index of the first occurrence of `a` in `l` (length of `l` if absent). -/
def firstIdx (l : List Str) (a : Str) : Nat := l.findIdx (fun y => decide (y = a))


/-! Concrete example values used by the witness theorems. -/

def exE1 : Entry := ⟨"Acme".toList, "Washer".toList, "F21".toList,
  "Long Drain Error".toList, "Clean drain pump".toList, [], [], []⟩

def exE2 : Entry := ⟨"Acme".toList, "Washer".toList, "F22".toList,
  "Long Drain Error".toList, "Clean drain pump".toList, [], [], []⟩

def exDb : List Entry := [exE1, exE2]

def exSt : UIState := ⟨[[]], [], [[]], [], [[]], [], true, true, false, some exE1⟩

def exStEmpty : UIState := ⟨[[]], [], [[]], [], [[]], [], true, true, false, none⟩

/-! Helper lemmas. -/

theorem firstIdx_cons_self {a : Str} {l : List Str} : firstIdx (a :: l) a = 0 := by
  simp [firstIdx, List.findIdx_cons]

theorem firstIdx_cons_ne {a x : Str} {l : List Str} (h : a ≠ x) :
    firstIdx (x :: l) a = firstIdx l a + 1 := by
  simp [firstIdx, List.findIdx_cons, Ne.symm h]

theorem mem_dedupFirstAux {a : Str} :
    ∀ {l seen : List Str}, a ∈ dedupFirstAux seen l ↔ a ∈ l ∧ a ∉ seen := by
  intro l
  induction l with
  | nil => intro seen; simp [dedupFirstAux]
  | cons x xs ih =>
      intro seen
      simp only [dedupFirstAux]
      by_cases hx : x ∈ seen
      · rw [if_pos hx, ih]
        simp only [List.mem_cons]
        constructor
        · rintro ⟨h1, h2⟩; exact ⟨Or.inr h1, h2⟩
        · rintro ⟨rfl | h1, h2⟩
          · exact absurd hx h2
          · exact ⟨h1, h2⟩
      · rw [if_neg hx]
        simp only [List.mem_cons, ih]
        constructor
        · rintro (rfl | ⟨h1, h2⟩)
          · exact ⟨Or.inl rfl, hx⟩
          · exact ⟨Or.inr h1, fun hs => h2 (Or.inr hs)⟩
        · rintro ⟨h1 | h1, h2⟩
          · exact Or.inl h1
          · rcases eq_or_ne a x with rfl | hax
            · exact Or.inl rfl
            · exact Or.inr ⟨h1, fun hs => hs.elim hax h2⟩

theorem nodup_dedupFirstAux :
    ∀ {l seen : List Str}, (dedupFirstAux seen l).Nodup := by
  intro l
  induction l with
  | nil => intro seen; simp [dedupFirstAux]
  | cons x xs ih =>
      intro seen
      by_cases hx : x ∈ seen
      · simpa [dedupFirstAux, hx] using ih
      · simp only [dedupFirstAux, hx, if_false, List.nodup_cons]
        refine ⟨fun hmem => ?_, ih⟩
        exact (mem_dedupFirstAux.mp hmem).2 (List.mem_cons_self x seen)

theorem pairwise_dedupFirstAux :
    ∀ {l seen : List Str},
      (dedupFirstAux seen l).Pairwise (fun a b => firstIdx l a < firstIdx l b) := by
  intro l
  induction l with
  | nil => intro seen; simp [dedupFirstAux]
  | cons x xs ih =>
      intro seen
      simp only [dedupFirstAux]
      by_cases hx : x ∈ seen
      · rw [if_pos hx]
        refine List.Pairwise.imp_of_mem ?_ (@ih seen)
        intro a b ha hb hab
        have ha2 := mem_dedupFirstAux.mp ha
        have hb2 := mem_dedupFirstAux.mp hb
        have hax : a ≠ x := fun h => ha2.2 (h ▸ hx)
        have hbx : b ≠ x := fun h => hb2.2 (h ▸ hx)
        rw [firstIdx_cons_ne hax, firstIdx_cons_ne hbx]
        exact Nat.succ_lt_succ hab
      · rw [if_neg hx]
        refine List.pairwise_cons.mpr ⟨?_, ?_⟩
        · intro b hb
          have hb2 := mem_dedupFirstAux.mp hb
          have hbx : b ≠ x := fun h => hb2.2 (h ▸ List.mem_cons_self x seen)
          rw [firstIdx_cons_self, firstIdx_cons_ne hbx]
          exact Nat.succ_pos _
        · refine List.Pairwise.imp_of_mem ?_ (@ih (x :: seen))
          intro a b ha hb hab
          have ha2 := mem_dedupFirstAux.mp ha
          have hb2 := mem_dedupFirstAux.mp hb
          have hax : a ≠ x := fun h => ha2.2 (h ▸ List.mem_cons_self x seen)
          have hbx : b ≠ x := fun h => hb2.2 (h ▸ List.mem_cons_self x seen)
          rw [firstIdx_cons_ne hax, firstIdx_cons_ne hbx]
          exact Nat.succ_lt_succ hab

theorem mem_dedupFirst {a : Str} {l : List Str} : a ∈ dedupFirst l ↔ a ∈ l := by
  simp [dedupFirst, mem_dedupFirstAux]

theorem nodup_dedupFirst {l : List Str} : (dedupFirst l).Nodup :=
  nodup_dedupFirstAux

theorem pairwise_firstIdx_dedupFirst {l : List Str} :
    (dedupFirst l).Pairwise (fun a b => firstIdx l a < firstIdx l b) :=
  pairwise_dedupFirstAux

theorem searchText_eq_find? {db : List Entry} {q : Str}
    (hq : 2 ≤ (jsNormalize q).length) :
    searchText db q = db.find? (fun e => entryMatches e (jsNormalize q)) := by
  simp only [searchText]
  rw [if_neg (Nat.not_lt.mpr hq)]

/-! Claim theorems. -/

/-- C2: `findExact` returns the first catalog entry whose brand, type and
code each equal the arguments under exact case-sensitive equality, and
not-found when no entry matches all three fields. -/
theorem findExact_spec (db : List Entry) (b t c : Str) :
    (∀ m, findExact db b t c = some m ↔
      (m.brand = b ∧ m.type = t ∧ m.code = c) ∧
      ∃ pre post, db = pre ++ m :: post ∧
        ∀ e ∈ pre, ¬(e.brand = b ∧ e.type = t ∧ e.code = c)) ∧
    (findExact db b t c = none ↔ ∀ e ∈ db, ¬(e.brand = b ∧ e.type = t ∧ e.code = c)) := by
  constructor
  · intro m
    rw [findExact, List.find?_eq_some]
    simp only [decide_eq_true_eq, Bool.not_eq_true', decide_eq_false_iff_not]
  · rw [findExact, List.find?_eq_none]
    simp only [decide_eq_true_eq]

/-- C3: `listBrands` returns exactly the distinct brand values of the
catalog, without duplicates, sorted ascending in the lexicographic order
on character lists; the empty catalog gives the empty list. -/
theorem listBrands_spec (db : List Entry) :
    (listBrands db).Nodup ∧ (listBrands db).Sorted (· ≤ ·) ∧
    (∀ s, s ∈ listBrands db ↔ ∃ e ∈ db, e.brand = s) ∧
    listBrands [] = [] := by
  refine ⟨?_, ?_, ?_, rfl⟩
  · exact ((List.perm_insertionSort _ _).nodup_iff).mpr nodup_dedupFirst
  · exact List.sorted_insertionSort _ _
  · intro s
    rw [listBrands, (List.perm_insertionSort _ _).mem_iff, mem_dedupFirst]
    simp [List.mem_map]

/-- C4: `listTypes` returns the distinct types of the entries of the given
brand, without duplicates, ordered by first occurrence among those
entries; the empty brand and a brand matching no entry give the empty
list. -/
theorem listTypes_spec (db : List Entry) (b : Str) :
    (listTypes db b).Nodup ∧
    (∀ t, t ∈ listTypes db b ↔ b ≠ [] ∧ ∃ e ∈ db, e.brand = b ∧ e.type = t) ∧
    (listTypes db b).Pairwise (fun t1 t2 =>
      firstIdx ((db.filter (fun e => decide (e.brand = b))).map (·.type)) t1 <
      firstIdx ((db.filter (fun e => decide (e.brand = b))).map (·.type)) t2) ∧
    ((b = [] ∨ ∀ e ∈ db, e.brand ≠ b) → listTypes db b = []) := by
  refine ⟨?_, ?_, ?_, ?_⟩
  · by_cases hb : b = [] <;> simp [listTypes, hb, nodup_dedupFirst]
  · intro t
    by_cases hb : b = []
    · simp [listTypes, hb]
    · rw [listTypes, if_neg hb, mem_dedupFirst]
      simp only [List.mem_map, List.mem_filter, decide_eq_true_eq, ne_eq, hb,
        not_false_iff, true_and]
      constructor
      · rintro ⟨e, ⟨he, hbe⟩, hte⟩; exact ⟨e, he, hbe, hte⟩
      · rintro ⟨e, he, hbe, hte⟩; exact ⟨e, ⟨he, hbe⟩, hte⟩
  · by_cases hb : b = []
    · simp [listTypes, hb]
    · rw [listTypes, if_neg hb]
      exact pairwise_firstIdx_dedupFirst
  · rintro (rfl | hall)
    · simp [listTypes]
    · by_cases hb : b = []
      · simp [listTypes, hb]
      · have hf : db.filter (fun e => decide (e.brand = b)) = [] := by
          rw [List.filter_eq_nil_iff]
          intro e he
          simpa using hall e he
        simp [listTypes, hb, hf, dedupFirst, dedupFirstAux]

/-- C5: `listCodes` returns exactly the subsequence of catalog entries
whose brand and type both equal the arguments, in catalog order, with
duplicates kept; an empty brand or type gives the empty list. -/
theorem listCodes_spec (db : List Entry) (b t : Str) :
    (listCodes db b t).Sublist db ∧
    (∀ e, e ∈ listCodes db b t ↔ (b ≠ [] ∧ t ≠ []) ∧ e ∈ db ∧ e.brand = b ∧ e.type = t) ∧
    (b ≠ [] ∧ t ≠ [] → ∀ e, (listCodes db b t).count e =
      if e.brand = b ∧ e.type = t then db.count e else 0) ∧
    ((b = [] ∨ t = []) → listCodes db b t = []) := by
  have hcase : (b = [] ∨ t = []) ∨ (b ≠ [] ∧ t ≠ []) := by tauto
  refine ⟨?_, ?_, ?_, ?_⟩
  · rcases hcase with h | h
    · rw [listCodes, if_pos h]; exact List.nil_sublist db
    · rw [listCodes, if_neg (by tauto)]; exact List.filter_sublist db
  · intro e
    rcases hcase with h | h
    · rw [listCodes, if_pos h]
      simp only [List.not_mem_nil, false_iff]
      tauto
    · rw [listCodes, if_neg (by tauto)]
      simp only [List.mem_filter, decide_eq_true_eq, h, true_and]
      tauto
  · rintro h e
    rw [listCodes, if_neg (by tauto)]
    by_cases he : e.brand = b ∧ e.type = t
    · rw [if_pos he]
      exact List.count_filter (by simpa using he)
    · rw [if_neg he]
      rw [List.count_eq_zero]
      intro hmem
      exact he (by simpa using (List.mem_filter.mp hmem).2)
  · intro h
    rw [listCodes, if_pos h]

/-- C6: a query whose normalized form is shorter than two characters makes
`searchText` return not-found, on every catalog. -/
theorem searchText_short_spec (db : List Entry) (q : Str)
    (h : (jsNormalize q).length < 2) : searchText db q = none := by
  simp [searchText, h]

/-- C6 witness. -/
theorem searchText_short_witness :
    (jsNormalize "x".toList).length < 2 ∧ searchText exDb "x".toList = none :=
  ⟨by decide, searchText_short_spec exDb _ (by decide)⟩

/-- C7: every query operation is total; on the unloaded (empty) catalog
each returns its defined empty or not-found result for all arguments. -/
theorem queries_total_spec (b t c q : Str) :
    listBrands [] = [] ∧ listTypes [] b = [] ∧ listCodes [] b t = [] ∧
    findExact [] b t c = none ∧ searchText [] q = none := by
  refine ⟨rfl, ?_, ?_, ?_, ?_⟩
  · by_cases hb : b = [] <;> simp [listTypes, hb, dedupFirst, dedupFirstAux]
  · by_cases hb : b = [] ∨ t = [] <;> simp [listCodes, hb]
  · simp [findExact]
  · simp [searchText]

/-- C9: when the search comes back empty (short query or no textual
match), `handleSearch` leaves the whole UI state unchanged. -/
theorem handleSearch_frame_spec (db : List Entry) (q : Str) (st : UIState)
    (h : searchText db q = none) : handleSearch db q st = st := by
  simp [handleSearch, h]

/-- C9 witness: a query matching nothing leaves a state with a visible
solution card untouched. -/
theorem handleSearch_frame_witness :
    searchText exDb "zz".toList = none ∧ handleSearch exDb "zz".toList exSt = exSt :=
  ⟨by decide, handleSearch_frame_spec exDb _ exSt (by decide)⟩

/-- C10: on a catalog whose entries all have non-empty brand, type and
code, rendering with any empty (placeholder) selection misses the key
lookup and only hides the card, leaving the rest of the state intact. -/
theorem renderSolution_placeholder_spec (db : List Entry) (st : UIState)
    (hne : ∀ e ∈ db, e.brand ≠ [] ∧ e.type ≠ [] ∧ e.code ≠ [])
    (h : st.brandVal = [] ∨ st.typeVal = [] ∨ st.codeVal = []) :
    findExact db st.brandVal st.typeVal st.codeVal = none ∧
    renderSolution db st = { st with cardHidden := true } := by
  have hnone : findExact db st.brandVal st.typeVal st.codeVal = none := by
    rw [findExact, List.find?_eq_none]
    intro e he
    simp only [decide_eq_true_eq]
    rintro ⟨h1, h2, h3⟩
    obtain ⟨hb, ht, hc⟩ := hne e he
    rcases h with h | h | h
    · exact hb (h ▸ h1)
    · exact ht (h ▸ h2)
    · exact hc (h ▸ h3)
  exact ⟨hnone, by simp [renderSolution, hnone, hideSolution]⟩

/-- C10 witness. -/
theorem renderSolution_placeholder_witness :
    (∀ e ∈ exDb, e.brand ≠ [] ∧ e.type ≠ [] ∧ e.code ≠ []) ∧
    exStEmpty.brandVal = [] ∧
    findExact exDb exStEmpty.brandVal exStEmpty.typeVal exStEmpty.codeVal = none ∧
    renderSolution exDb exStEmpty = { exStEmpty with cardHidden := true } := by
  refine ⟨by decide, rfl, ?_⟩
  exact renderSolution_placeholder_spec exDb exStEmpty (by decide) (Or.inl rfl)

/-- C1: for a normalized query of length at least two, `searchText`
returns the first catalog entry (lowest index) whose lower-cased
`"{brand} {code} {issue} {fix_summary}"` concatenation contains the
normalized query as a contiguous substring, and not-found when no entry
contains it; in particular of two matching entries the earlier wins. -/
theorem searchText_first_match_spec (db : List Entry) (q : Str)
    (hq : 2 ≤ (jsNormalize q).length) :
    (∀ m, searchText db q = some m ↔
      (jsNormalize q <:+: jsToLower (fullString m)) ∧
      ∃ pre post, db = pre ++ m :: post ∧
        ∀ e ∈ pre, ¬(jsNormalize q <:+: jsToLower (fullString e))) ∧
    (searchText db q = none ↔ ∀ e ∈ db, ¬(jsNormalize q <:+: jsToLower (fullString e))) := by
  constructor
  · intro m
    rw [searchText_eq_find? hq, List.find?_eq_some]
    simp only [entryMatches, decide_eq_true_eq, Bool.not_eq_true', decide_eq_false_iff_not]
  · rw [searchText_eq_find? hq, List.find?_eq_none]
    simp only [entryMatches, decide_eq_true_eq]

/-- C1 witness: both example entries contain `"drain"`, and the earlier
one is returned. -/
theorem searchText_first_match_witness :
    2 ≤ (jsNormalize "drain".toList).length ∧
    (jsNormalize "drain".toList <:+: jsToLower (fullString exE2)) ∧
    searchText exDb "drain".toList = some exE1 := by
  refine ⟨by decide, by decide, ?_⟩
  exact ((searchText_first_match_spec exDb _ (by decide)).1 exE1).mpr
    ⟨by decide, [], [exE2], rfl, by simp⟩

theorem searchText_some_mem {db : List Entry} {q : Str} {m : Entry}
    (hs : searchText db q = some m) : m ∈ db := by
  by_cases h : (jsNormalize q).length < 2
  · simp [searchText, h] at hs
  · rw [searchText_eq_find? (Nat.le_of_not_lt h)] at hs
    exact List.mem_of_find?_eq_some hs

theorem updateCodes_none_run (db : List Entry) (st : UIState)
    (hb : st.brandVal ≠ []) (ht : st.typeVal ≠ []) :
    updateCodes db none st =
      { st with
        codeOpts := ([] : Str) ::
          (db.filter (fun e => decide (e.brand = st.brandVal ∧ e.type = st.typeVal))).map (·.code),
        codeVal := [], codeDisabled := false, cardHidden := true } := by
  simp only [updateCodes]
  rw [if_neg (by simp [hb, ht])]

theorem updateTypes_pre_run (db : List Entry) (st : UIState) (t : Str)
    (hb : st.brandVal ≠ []) (ht : t ≠ [])
    (hmem : t ∈ dedupFirst ((db.filter (fun e => decide (e.brand = st.brandVal))).map (·.type))) :
    updateTypes db (some t) st =
      updateCodes db none
        { st with
          typeOpts := ([] : Str) ::
            dedupFirst ((db.filter (fun e => decide (e.brand = st.brandVal))).map (·.type)),
          typeVal := t, codeOpts := [[]], codeVal := [],
          typeDisabled := false, codeDisabled := true, cardHidden := true } := by
  simp only [updateTypes]
  rw [if_neg hb, if_pos ⟨ht, hmem⟩]

theorem renderSolution_run (db : List Entry) (st : UIState) {r : Entry}
    (hr : findExact db st.brandVal st.typeVal st.codeVal = some r) :
    renderSolution db st = { st with displayed := some r, cardHidden := false } := by
  rw [renderSolution, hr]

/-- C8: after a successful search finding `m`, the rendered entry is
`findExact db m.brand m.type m.code` — the first catalog entry with that
key; under key uniqueness it is `m` itself.  The state is any state whose
brand dropdown `populateBrands` has filled (the entries carry the
non-empty brand and type fields the data model guarantees). -/
theorem handleSearch_renders_key_spec (db : List Entry) (q : Str) (st0 : UIState) (m : Entry)
    (hne : ∀ e ∈ db, e.brand ≠ [] ∧ e.type ≠ [])
    (hs : searchText db q = some m) :
    (handleSearch db q (populateBrands db st0)).displayed = findExact db m.brand m.type m.code ∧
    (handleSearch db q (populateBrands db st0)).cardHidden = false ∧
    ((∀ e1 ∈ db, ∀ e2 ∈ db, e1.brand = e2.brand → e1.type = e2.type → e1.code = e2.code →
        e1 = e2) →
      (handleSearch db q (populateBrands db st0)).displayed = some m) := by
  have hm : m ∈ db := searchText_some_mem hs
  have hbne : m.brand ≠ [] := (hne m hm).1
  have htne : m.type ≠ [] := (hne m hm).2
  have hbl : m.brand ∈ listBrands db := by
    rw [listBrands, (List.perm_insertionSort _ _).mem_iff, mem_dedupFirst]
    exact List.mem_map.mpr ⟨m, hm, rfl⟩
  obtain ⟨r, hr⟩ : ∃ r, findExact db m.brand m.type m.code = some r := by
    have hsome :
        (db.find? fun e => decide (e.brand = m.brand ∧ e.type = m.type ∧ e.code = m.code)).isSome := by
      rw [List.find?_isSome]
      exact ⟨m, hm, by simp⟩
    exact Option.isSome_iff_exists.mp hsome
  have hr' : db.find? (fun e => decide (e.brand = m.brand ∧ e.type = m.type ∧ e.code = m.code)) =
      some r := hr
  have hrmem : r ∈ db := List.mem_of_find?_eq_some hr'
  have hrkey : r.brand = m.brand ∧ r.type = m.type ∧ r.code = m.code := by
    simpa using List.find?_some hr'
  have hsv : setVal (populateBrands db st0).brandOpts m.brand = m.brand := by
    rw [setVal, if_pos]
    exact List.mem_append_right _ hbl
  have h1 : handleSearch db q (populateBrands db st0) =
      renderSolution db
        { updateTypes db (some m.type) { populateBrands db st0 with brandVal := m.brand } with
          codeVal := setVal (updateTypes db (some m.type)
            { populateBrands db st0 with brandVal := m.brand }).codeOpts m.code } := by
    simp only [handleSearch, hs, hsv]
  have h2 : updateTypes db (some m.type) { populateBrands db st0 with brandVal := m.brand } =
      { brandOpts := st0.brandOpts ++ listBrands db
        brandVal := m.brand
        typeOpts := ([] : Str) ::
          dedupFirst ((db.filter (fun e => decide (e.brand = m.brand))).map (·.type))
        typeVal := m.type
        codeOpts := ([] : Str) ::
          (db.filter (fun e => decide (e.brand = m.brand ∧ e.type = m.type))).map (·.code)
        codeVal := []
        typeDisabled := false
        codeDisabled := false
        cardHidden := true
        displayed := st0.displayed } := by
    rw [updateTypes_pre_run db _ m.type hbne htne
      (mem_dedupFirst.mpr (List.mem_map.mpr ⟨m, List.mem_filter.mpr ⟨hm, by simp⟩, rfl⟩))]
    rw [updateCodes_none_run db _ hbne htne]
    rfl
  have hcv : setVal (updateTypes db (some m.type)
      { populateBrands db st0 with brandVal := m.brand }).codeOpts m.code = m.code := by
    rw [h2, setVal, if_pos]
    exact List.mem_cons.mpr (Or.inr (List.mem_map.mpr
      ⟨m, List.mem_filter.mpr ⟨hm, by simp⟩, rfl⟩))
  have h4 : handleSearch db q (populateBrands db st0) =
      { updateTypes db (some m.type) { populateBrands db st0 with brandVal := m.brand } with
        codeVal := m.code, displayed := some r, cardHidden := false } := by
    rw [h1, hcv]
    rw [renderSolution_run db _ (by rw [h2]; exact hr')]
  refine ⟨?_, ?_, ?_⟩
  · rw [h4, hr]
  · rw [h4]
  · intro hu
    have : r = m := hu r hrmem m hm hrkey.1 hrkey.2.1 hrkey.2.2
    rw [h4, this]

/-- C8 witness: searching `"f22"` finds the second entry and renders it
(its composite key is unique in the example catalog). -/
theorem handleSearch_renders_key_witness :
    (∀ e ∈ exDb, e.brand ≠ [] ∧ e.type ≠ []) ∧
    searchText exDb "f22".toList = some exE2 ∧
    (handleSearch exDb "f22".toList (populateBrands exDb exStEmpty)).displayed = some exE2 := by
  refine ⟨by decide, by decide, ?_⟩
  exact (handleSearch_renders_key_spec exDb _ exStEmpty exE2 (by decide) (by decide)).2.2
    (by decide)

/-- C4 witness: the empty brand and an unknown brand both give the empty
type list. -/
theorem listTypes_spec_witness :
    listTypes exDb ([] : Str) = [] ∧ listTypes exDb "Zz".toList = [] := by
  constructor
  · exact (listTypes_spec exDb []).2.2.2 (Or.inl rfl)
  · exact (listTypes_spec exDb _).2.2.2 (Or.inr (by decide))

/-- C5 witness: an empty type gives the empty list, and a matching entry
is kept with its catalog multiplicity. -/
theorem listCodes_spec_witness :
    listCodes exDb "Acme".toList ([] : Str) = [] ∧
    (listCodes exDb "Acme".toList "Washer".toList).count exE1 = 1 := by
  constructor
  · exact (listCodes_spec exDb _ []).2.2.2 (Or.inr rfl)
  · have h := (listCodes_spec exDb "Acme".toList "Washer".toList).2.2.1 (by decide) exE1
    rw [h]
    decide
